import Mathlib

/-!
Verification of the streaming STT adapter (plugin-stt-local-whisper).

This file shallowly embeds the program's text utilities, the C++ streaming
engine state machine (`native_stream.cpp`), the Go native engines
(`internal/engine/native.go`, `internal/whisper/native.go`), the stub engine,
and the server-side language resolver, and proves or refutes the frozen
claims about them.

Conventions of the embedding:
* Go / C++ strings are Lean `String`s; Go runes and C++ chars are `Char`.
* PCM sample values (`float`) are represented as `ℚ`; every operation the
  claims touch either never inspects sample values (buffer splicing) or is
  exact in binary floating point (16-bit PCM to float conversion divides an
  integer of magnitude at most 2^15 by 2^15, which is exact in float32).
* Whisper token ids (`whisper_token`, an int32) are `Int`.
* Byte buffers are `List (Fin 256)`.
* The opaque whisper.cpp inference call is an oracle parameter: a function
  from the audio window (and decoder prompt) to the segment/token output it
  would report, or `none` / an error for a failing call.  All code around
  the call is translated from the source.
-/

/-! ## Shared text helpers (Go `strings`, C++ `trim`) -/

/-- Go `unicode.IsSpace`: the Unicode White_Space property, as hard-coded in
the Go runtime tables (`'\t'..'\r'`, `' '`, U+0085, U+00A0, U+1680,
U+2000..U+200A, U+2028, U+2029, U+202F, U+205F, U+3000). -/
def goIsSpace (c : Char) : Bool :=
  let n := c.toNat
  (9 ≤ n && n ≤ 13) || n = 32 || n = 0x85 || n = 0xA0 || n = 0x1680 ||
    (0x2000 ≤ n && n ≤ 0x200A) || n = 0x2028 || n = 0x2029 || n = 0x202F ||
    n = 0x205F || n = 0x3000

/-- Characters of the cutset `" \t\r\n"` used by C++ `trim` and by
`strings.TrimLeft(delta, " \t\r\n")` in `textutil.go`. -/
def isCutsetSpace (c : Char) : Bool :=
  c = ' ' || c = '\t' || c = '\r' || c = '\n'

/-- ASCII whitespace (the six ASCII characters with the White_Space
property), used to formalise the claim's words "ASCII whitespace". -/
def asciiIsSpace (c : Char) : Bool :=
  c = ' ' || c = '\t' || c = '\n' || c = '\r' || c = '\x0B' || c = '\x0C'

/-- Drop characters satisfying `p` from both ends of a character list. -/
def trimListWith (p : Char → Bool) (l : List Char) : List Char :=
  ((l.dropWhile p).reverse.dropWhile p).reverse

/-- Go `strings.TrimSpace`. -/
def goTrimSpace (s : String) : String :=
  ⟨trimListWith goIsSpace s.data⟩

/-- ASCII-whitespace trim, for the claim-side definition of the differ. -/
def asciiTrim (s : String) : String :=
  ⟨trimListWith asciiIsSpace s.data⟩

/-- Model of `trim` from `native_stream.cpp`: strips the cutset `" \t\r\n"` from both
ends (`find_first_not_of` / `find_last_not_of`). -/
def cppTrim (s : String) : String :=
  ⟨trimListWith isCutsetSpace s.data⟩

/-! ## `internal/engine/textutil.go` -/

/-- The rune-comparison loop of `diffTranscript`: scans the previous runes
against the current runes and reports whether some position disagrees
(`currRunes[i] != prevRunes[i]`). -/
def runesDiffer : List Char → List Char → Bool
  | [], _ => false
  | _ :: _, [] => false
  | p :: ps, c :: cs => if c ≠ p then true else runesDiffer ps cs

/-- Model of `diffTranscript` from `internal/engine/textutil.go` (the byte-identical
copy in the `whisper` package is used by `internal/whisper/native.go`). -/
def diffTranscript (previousText currentText : String) : String :=
  let prevTrimmed := goTrimSpace previousText
  let currTrimmed := goTrimSpace currentText
  if prevTrimmed = "" then currTrimmed
  else if prevTrimmed = currTrimmed then ""
  else
    let prevRunes := prevTrimmed.data
    let currRunes := currTrimmed.data
    if prevRunes.length > currRunes.length then currTrimmed
    else if runesDiffer prevRunes currRunes then currTrimmed
    else String.mk ((currRunes.drop prevRunes.length).dropWhile isCutsetSpace)

/-- The claim's description of `diff_transcript`, following the spec's words
verbatim: trims ASCII whitespace on both inputs (the code trims Unicode
whitespace), otherwise the same algorithm. -/
def diffTranscript_claim (previousText currentText : String) : String :=
  let prevTrimmed := asciiTrim previousText
  let currTrimmed := asciiTrim currentText
  if prevTrimmed = "" then currTrimmed
  else if prevTrimmed = currTrimmed then ""
  else if prevTrimmed.data.length > currTrimmed.data.length then currTrimmed
  else if currTrimmed.data.take prevTrimmed.data.length ≠ prevTrimmed.data then currTrimmed
  else String.mk ((currTrimmed.data.drop prevTrimmed.data.length).dropWhile asciiIsSpace)

/-- The amended description: identical to the claim except that the two
inputs are trimmed of Unicode whitespace (Go `strings.TrimSpace`) and the
delta is stripped of leading `" \t\r\n"` characters only. -/
def diffTranscript_amended (previousText currentText : String) : String :=
  let prevTrimmed := goTrimSpace previousText
  let currTrimmed := goTrimSpace currentText
  if prevTrimmed = "" then currTrimmed
  else if prevTrimmed = currTrimmed then ""
  else if prevTrimmed.data.length > currTrimmed.data.length then currTrimmed
  else if currTrimmed.data.take prevTrimmed.data.length ≠ prevTrimmed.data then currTrimmed
  else String.mk ((currTrimmed.data.drop prevTrimmed.data.length).dropWhile isCutsetSpace)

/-- Go `strings.ToLower`, restricted to ASCII letters (the only characters
the language codes in this program carry). -/
def goToLower (s : String) : String :=
  ⟨s.data.map Char.toLower⟩

/-- Model of `preferLanguage` from `internal/engine/textutil.go`. -/
def preferLanguage (value : String) : String :=
  let trimmed := goTrimSpace value
  if trimmed = "" || goToLower trimmed = "auto" then ""
  else goToLower trimmed

/-- Three-argument `normaliseLanguage` from `internal/engine/textutil.go`. -/
def normaliseLanguage (candidate previousLang forced : String) : String :=
  if preferLanguage candidate ≠ "" then preferLanguage candidate
  else if preferLanguage previousLang ≠ "" then preferLanguage previousLang
  else if preferLanguage forced ≠ "" then preferLanguage forced
  else if goTrimSpace candidate ≠ "" then "auto"
  else if goTrimSpace previousLang ≠ "" then "auto"
  else if goTrimSpace forced ≠ "" then goTrimSpace forced
  else "auto"

/-- Two-argument `normaliseLanguage` of the `whisper` package (candidate,
then fallback, else `"auto"`). -/
def normaliseLanguageW (candidate fallback : String) : String :=
  if goTrimSpace candidate ≠ "" then goTrimSpace candidate
  else if goTrimSpace fallback ≠ "" then goTrimSpace fallback
  else "auto"

/-! Helper lemma: on the no-mismatch branch the loop of `runesDiffer`
agrees with the take-and-compare formulation of the spec. -/

theorem runesDiffer_eq_take (p c : List Char) (h : p.length ≤ c.length) :
    runesDiffer p c = decide (c.take p.length ≠ p) := by
  induction p generalizing c with
  | nil => simp [runesDiffer]
  | cons a as ih =>
    cases c with
    | nil => simp at h
    | cons b bs =>
      simp only [runesDiffer, List.length_cons, List.take_succ_cons]
      by_cases hba : b = a
      · subst hba
        have := ih bs (by simpa using h)
        simp [this]
      · simp [hba, Ne.symm hba]

/-- C6 counterexample: the code trims Unicode whitespace (Go
`strings.TrimSpace`), not ASCII whitespace as the claim states.  On
`previous = ""`, `current = "hello "` (trailing NO-BREAK SPACE) the
code returns `"hello"`, while the claim's ASCII-trimming description
returns `"hello "`. -/
theorem diffTranscript_claim_counterexample :
    diffTranscript "" "hello " = "hello" ∧
    diffTranscript_claim "" "hello " = "hello " ∧
    ("hello" : String) ≠ "hello " := by
  refine ⟨by decide, by decide, by decide⟩

/-- C6 (amended): `diffTranscript` trims Unicode whitespace (Go
`strings.TrimSpace`) on both inputs; it returns trimmed `current` when
trimmed `previous` is empty, the empty string when the trimmed inputs are
equal, trimmed `current` when `previous` has more runes than `current` or
some rune in the first `len(previous)` runes differs, and otherwise the
rune suffix of `current` after the shared prefix with leading `" \t\r\n"`
characters stripped; in particular
`diffTranscript "cześć" "cześć świecie" = "świecie"`. -/
theorem diffTranscript_matches_amended :
    (∀ p c, diffTranscript p c = diffTranscript_amended p c) ∧
    diffTranscript "cześć" "cześć świecie" = "świecie" := by
  constructor
  · intro p c
    unfold diffTranscript diffTranscript_amended
    by_cases h1 : goTrimSpace p = ""
    · simp [h1]
    by_cases h2 : goTrimSpace p = goTrimSpace c
    · simp [h1, h2]
    by_cases h3 : (goTrimSpace c).length < (goTrimSpace p).length
    · simp [h1, h2, h3]
    have h3' : (goTrimSpace p).data.length ≤ (goTrimSpace c).data.length := Nat.not_lt.mp h3
    have hm := runesDiffer_eq_take (goTrimSpace p).data (goTrimSpace c).data h3'
    by_cases h4 : (goTrimSpace c).data.take (goTrimSpace p).data.length ≠ (goTrimSpace p).data
    · simp [h1, h2, h3, hm, h4]
    · simp [h1, h2, h3, hm, h4]
  · decide

/-! ## `internal/server/server.go`: language resolution -/

/-- Go map read `metadata["nupi.lang.iso1"]`: the zero value `""` when the
key is absent.  Request metadata is modelled as an association list. -/
def mdLookup (metadata : List (String × String)) (key : String) : String :=
  (metadata.lookup key).getD ""

/-- Model of `resolveLanguage` from `internal/server/server.go`. -/
def resolveLanguage (configLang : String) (metadata : List (String × String)) : String :=
  if configLang ≠ "client" then configLang
  else
    let code := goTrimSpace (mdLookup metadata "nupi.lang.iso1")
    if code ≠ "" then code else "auto"

/-- The claim's description of language resolution, written from the spec's
words: config language passed verbatim unless it is `"client"`; for
`"client"`, the whitespace-trimmed metadata value at `nupi.lang.iso1`,
falling back to `"auto"` when absent or trimming to empty. -/
def resolveLanguage_spec (configLang : String) (metadata : List (String × String)) : String :=
  if configLang = "client" then
    if goTrimSpace (mdLookup metadata "nupi.lang.iso1") = "" then "auto"
    else goTrimSpace (mdLookup metadata "nupi.lang.iso1")
  else configLang

/-- C8: for every stream, the resolved per-stream language follows the
spec's three policies: verbatim config language unless `"client"`;
`"client"` takes the trimmed `nupi.lang.iso1` metadata value, falling back
to `"auto"`; metadata `"  pl  "` resolves to `"pl"`, empty metadata to
`"auto"`, and config `"de"` to `"de"` for any metadata. -/
theorem resolveLanguage_matches_spec :
    (∀ cfg md, resolveLanguage cfg md = resolveLanguage_spec cfg md) ∧
    resolveLanguage "client" [("nupi.lang.iso1", "  pl  ")] = "pl" ∧
    resolveLanguage "client" [] = "auto" ∧
    resolveLanguage "de" [("nupi.lang.iso1", "  pl  ")] = "de" := by
  refine ⟨fun cfg md => ?_, by decide, by decide, by decide⟩
  unfold resolveLanguage resolveLanguage_spec
  by_cases hc : cfg = "client"
  · subst hc
    by_cases he : goTrimSpace (mdLookup md "nupi.lang.iso1") = "" <;> simp [he]
  · simp [hc]

/-! ## `pcmBytesToFloat32` (identical in `internal/engine/native.go` and
`internal/whisper/native.go`) -/

/-- Model of `int16(binary.LittleEndian.Uint16 ...)`: the little-endian signed
16-bit value of two bytes. -/
def int16OfLE (b0 b1 : Fin 256) : Int :=
  let u : Nat := b0.val + 256 * b1.val
  if u < 32768 then (u : Int) else (u : Int) - 65536

/-- Model of `pcmBytesToFloat32`: each consecutive byte pair becomes one sample
`float32(int16(u)) / 32768.0`; a trailing odd byte is ignored.  Samples are
modelled in `ℚ`; the Go computation is exact in float32 because it divides
an integer of magnitude at most 2^15 by 2^15. -/
def pcmBytesToFloat32 : List (Fin 256) → List ℚ
  | b0 :: b1 :: rest => ((int16OfLE b0 b1 : ℚ) / 32768) :: pcmBytesToFloat32 rest
  | _ => []

theorem int16OfLE_bounds (b0 b1 : Fin 256) :
    -32768 ≤ int16OfLE b0 b1 ∧ int16OfLE b0 b1 ≤ 32767 := by
  unfold int16OfLE
  have h0 := b0.isLt
  have h1 := b1.isLt
  by_cases h : b0.val + 256 * b1.val < 32768 <;> simp [h] <;> omega

theorem pcm_eq_map (buf : List (Fin 256)) :
    pcmBytesToFloat32 buf =
      (List.range (buf.length / 2)).map (fun i =>
        ((int16OfLE (buf.getD (2 * i) 0) (buf.getD (2 * i + 1) 0) : ℚ) / 32768)) := by
  induction buf using pcmBytesToFloat32.induct with
  | case1 b0 b1 rest ih =>
      have hlen : (b0 :: b1 :: rest).length / 2 = rest.length / 2 + 1 := by
        simp only [List.length_cons]; omega
      rw [pcmBytesToFloat32, ih, hlen, List.range_succ_eq_map, List.map_cons, List.map_map]
      refine congrArg₂ _ (by simp) ?_
      refine List.map_congr_left ?_
      intro i _
      have h2 : 2 * (i + 1) = 2 * i + 1 + 1 := by ring
      have h3 : 2 * (i + 1) + 1 = (2 * i + 1) + 1 + 1 := by ring
      simp [Function.comp, h2, h3]
  | case2 x h => cases x with
      | nil => simp [pcmBytesToFloat32]
      | cons b rest => cases rest with
          | nil => simp [pcmBytesToFloat32]
          | cons b1 r2 => exact absurd rfl (h b b1 r2)

theorem pcm_bounds (buf : List (Fin 256)) :
    ∀ q ∈ pcmBytesToFloat32 buf, -1 ≤ q ∧ q ≤ 32767 / 32768 := by
  induction buf using pcmBytesToFloat32.induct with
  | case1 b0 b1 rest ih =>
      intro q hq
      rw [pcmBytesToFloat32] at hq
      rcases List.mem_cons.mp hq with h | h
      · subst h
        obtain ⟨hlo, hhi⟩ := int16OfLE_bounds b0 b1
        constructor
        · rw [show (-1 : ℚ) = -32768 / 32768 by norm_num]
          gcongr
          exact_mod_cast hlo
        · gcongr
          exact_mod_cast hhi
      · exact ih q h
  | case2 x h =>
      intro q hq
      cases x with
      | nil => simp [pcmBytesToFloat32] at hq
      | cons b rest => cases rest with
        | nil => simp [pcmBytesToFloat32] at hq
        | cons b1 r2 => exact absurd rfl (h b b1 r2)

/-- C10: `pcmBytesToFloat32` returns exactly `⌊len/2⌋` samples; sample `i`
is the little-endian signed 16-bit integer at byte offset `2i` divided by
32768 (exact in float32); every sample lies in `[-1, 32767/32768]`; a
trailing odd byte is ignored and an empty or single-byte input yields no
samples (both are instances of the `⌊len/2⌋`-length map form). -/
theorem pcmBytesToFloat32_correct :
    (∀ buf : List (Fin 256), (pcmBytesToFloat32 buf).length = buf.length / 2) ∧
    (∀ buf : List (Fin 256),
      pcmBytesToFloat32 buf =
        (List.range (buf.length / 2)).map (fun i =>
          ((int16OfLE (buf.getD (2 * i) 0) (buf.getD (2 * i + 1) 0) : ℚ) / 32768))) ∧
    (∀ buf : List (Fin 256), ∀ q ∈ pcmBytesToFloat32 buf,
      -1 ≤ q ∧ q ≤ 32767 / 32768) := by
  refine ⟨fun buf => ?_, pcm_eq_map, pcm_bounds⟩
  rw [pcm_eq_map]
  simp

/-- Witness for C10 at the concrete input `[0x00, 0x80]` (the sample
−32768/32768 = −1). -/
theorem pcmBytesToFloat32_correct_witness :
    (-1 : ℚ) ∈ pcmBytesToFloat32 [(0 : Fin 256), (128 : Fin 256)] ∧
    (-1 ≤ (-1 : ℚ) ∧ (-1 : ℚ) ≤ 32767 / 32768) := by
  have hval : int16OfLE (0 : Fin 256) (128 : Fin 256) = -32768 := by decide
  have hpcm : pcmBytesToFloat32 [(0 : Fin 256), (128 : Fin 256)] = [(-1 : ℚ)] := by
    rw [pcmBytesToFloat32, hval]
    norm_num [pcmBytesToFloat32]
  have hmem : (-1 : ℚ) ∈ pcmBytesToFloat32 [(0 : Fin 256), (128 : Fin 256)] := by
    rw [hpcm]
    exact List.mem_singleton.mpr rfl
  exact ⟨hmem, pcmBytesToFloat32_correct.2.2 [(0 : Fin 256), (128 : Fin 256)] (-1) hmem⟩

/-! ## `find_common_prefix` from `native_stream.cpp` -/

/-- The inner `while` loop of `find_common_prefix` for one start offset:
the number of initial positions where the two lists agree
(`previous[i + match_len] == current[match_len]`, stopping at the first
mismatch or at the end of either list). -/
def commonPrefixLen : List Int → List Int → Nat
  | a :: as, b :: bs => if a = b then commonPrefixLen as bs + 1 else 0
  | _, _ => 0

/-- Model of `find_common_prefix` from `native_stream.cpp`: 0 when `previous` is
empty, otherwise every start offset `i` of `previous` is matched against
the head of `current` and the longest match length wins (the code sets
`best_match = match_len` whenever `match_len > best_match_len`). -/
def find_common_prefix (previous current : List Int) : Nat :=
  if previous.isEmpty then 0
  else (List.range previous.length).foldl
    (fun best i => max best (commonPrefixLen (previous.drop i) current)) 0

/-- The claim's description of `find_common_prefix`, from the spec's words:
the largest `k ≤ len(current)` such that the suffix of `previous` of
length `k` equals the first `k` tokens of `current` (`k = 0` always
matches, so the maximum exists). -/
def find_common_prefix_claim (previous current : List Int) : Nat :=
  ((List.range (min previous.length current.length + 1)).filter
    (fun k => decide (previous.drop (previous.length - k) = current.take k))).foldl max 0

/-- C1 counterexample: with `previous = [1, 2]`, `current = [1, 3]` the code
returns 1 — the run of length 1 at offset 0 stops at a mismatch before the
end of `previous`, so it is not a whole-suffix match — while the largest
`k` with suffix `previous[len-k..] = current[0..k]` is 0. -/
theorem find_common_prefix_claim_counterexample :
    find_common_prefix [1, 2] [1, 3] = 1 ∧
    find_common_prefix_claim [1, 2] [1, 3] = 0 ∧ (1 : Nat) ≠ 0 := by
  refine ⟨by decide, by decide, by decide⟩

theorem commonPrefixLen_le_left (a b : List Int) :
    commonPrefixLen a b ≤ a.length := by
  induction a generalizing b with
  | nil => simp [commonPrefixLen]
  | cons x xs ih =>
    cases b with
    | nil => simp [commonPrefixLen]
    | cons y ys =>
      by_cases h : x = y <;> simp [commonPrefixLen, h]
      exact ih ys

theorem commonPrefixLen_le_right (a b : List Int) :
    commonPrefixLen a b ≤ b.length := by
  induction a generalizing b with
  | nil => simp [commonPrefixLen]
  | cons x xs ih =>
    cases b with
    | nil => simp [commonPrefixLen]
    | cons y ys =>
      by_cases h : x = y <;> simp [commonPrefixLen, h]
      exact ih ys

theorem commonPrefixLen_take (a b : List Int) :
    a.take (commonPrefixLen a b) = b.take (commonPrefixLen a b) := by
  induction a generalizing b with
  | nil => simp [commonPrefixLen]
  | cons x xs ih =>
    cases b with
    | nil => simp [commonPrefixLen]
    | cons y ys =>
      by_cases h : x = y <;> simp [commonPrefixLen, h]
      exact ih ys

theorem le_commonPrefixLen (m : Nat) (a b : List Int) (ha : m ≤ a.length)
    (hb : m ≤ b.length) (ht : a.take m = b.take m) :
    m ≤ commonPrefixLen a b := by
  induction m generalizing a b with
  | zero => exact Nat.zero_le _
  | succ n ih =>
    cases a with
    | nil => simp at ha
    | cons x xs =>
      cases b with
      | nil => simp at hb
      | cons y ys =>
        simp only [List.take_succ_cons, List.cons.injEq] at ht
        simp only [commonPrefixLen, ht.1, if_pos]
        have := ih xs ys (by simpa using ha) (by simpa using hb) ht.2
        omega

theorem foldl_max_init (a : ℕ) (l : List ℕ) :
    l.foldl max a = max a (l.foldl max 0) := by
  induction l generalizing a with
  | nil => simp
  | cons x xs ih =>
    simp only [List.foldl_cons]
    rw [ih (max a x), ih (max 0 x)]
    omega

theorem le_foldl_max (l : List ℕ) (x : ℕ) (hx : x ∈ l) :
    x ≤ l.foldl max 0 := by
  induction l with
  | nil => simp at hx
  | cons y ys ih =>
    simp only [List.foldl_cons]
    rw [foldl_max_init]
    rcases List.mem_cons.mp hx with h | h
    · omega
    · have := ih h; omega

theorem foldl_max_mem (l : List ℕ) :
    l.foldl max 0 = 0 ∨ l.foldl max 0 ∈ l := by
  induction l with
  | nil => simp
  | cons y ys ih =>
    simp only [List.foldl_cons]
    rw [foldl_max_init]
    rcases Nat.le_total (ys.foldl max 0) y with hle | hle
    · right
      have hy : max (max 0 y) (ys.foldl max 0) = y := by omega
      rw [hy]
      exact List.mem_cons_self y ys
    · rcases ih with h | h
      · left; omega
      · right
        have hy : max (max 0 y) (ys.foldl max 0) = ys.foldl max 0 := by omega
        rw [hy]
        exact List.mem_cons_of_mem y h

/-- C1 (amended): `find_common_prefix previous current` is the greatest `m`
such that the first `m` tokens of `current` reappear as a contiguous run
starting at some offset `i` of `previous`; the run may stop at a mismatch
before the end of `previous`, so it need not be a whole suffix of
`previous`, and an empty `previous` gives 0. -/
theorem find_common_prefix_amended (previous current : List Int) :
    (∃ i, i + find_common_prefix previous current ≤ previous.length ∧
        find_common_prefix previous current ≤ current.length ∧
        (previous.drop i).take ( find_common_prefix previous current) =
          current.take ( find_common_prefix previous current)) ∧
    (∀ m i, i + m ≤ previous.length → m ≤ current.length →
      (previous.drop i).take m = current.take m →
      m ≤ find_common_prefix previous current) := by
  have hfold : ∀ (l : List ℕ) (g : ℕ → ℕ),
      l.foldl (fun best i => max best (g i)) 0 = (l.map g).foldl max 0 := by
    intro l g
    rw [List.foldl_map]
  by_cases hp : previous.isEmpty
  · have hplen : previous.length = 0 := by
      cases previous with
      | nil => rfl
      | cons a l => simp [List.isEmpty] at hp
    constructor
    · exact ⟨0, by simp [ find_common_prefix, hp, hplen]⟩
    · intro m i h1 _ _
      have : m = 0 := by omega
      simp [this]
  · have hdef : find_common_prefix previous current =
        ((List.range previous.length).map
          (fun i => commonPrefixLen (previous.drop i) current)).foldl max 0 := by
      rw [ find_common_prefix, if_neg (by simpa using hp), hfold]
    constructor
    · rcases foldl_max_mem ((List.range previous.length).map
          (fun i => commonPrefixLen (previous.drop i) current)) with h0 | hmem
      · refine ⟨0, ?_, ?_, ?_⟩ <;> rw [hdef, h0] <;> simp
      · rw [hdef]
        rcases List.mem_map.mp hmem with ⟨i, hi, hiv⟩
        refine ⟨i, ?_, ?_, ?_⟩
        · have h1 := commonPrefixLen_le_left (previous.drop i) current
          have h2 := List.mem_range.mp hi
          rw [← hiv]
          simp only [List.length_drop] at h1
          omega
        · rw [← hiv]; exact commonPrefixLen_le_right _ _
        · rw [← hiv]; exact commonPrefixLen_take _ _
    · intro m i h1 h2 h3
      rcases Nat.lt_or_ge i previous.length with hi | hi
      · have hle : m ≤ commonPrefixLen (previous.drop i) current := by
          refine le_commonPrefixLen m _ _ ?_ h2 h3
          simp only [List.length_drop]
          omega
        rw [hdef]
        refine le_trans hle (le_foldl_max _ _ ?_)
        exact List.mem_map.mpr ⟨i, List.mem_range.mpr hi, rfl⟩
      · have : m = 0 := by omega
        simp [this]

/-- Witness for the amended C1 theorem: at `previous = [1, 2]`,
`current = [1, 3]` the aligned run `(i, m) = (0, 1)` forces the result to
be at least 1. -/
theorem find_common_prefix_amended_witness :
    1 ≤ find_common_prefix [1, 2] [1, 3] :=
  (find_common_prefix_amended [1, 2] [1, 3]).2 1 0 (by decide) (by decide) (by decide)

/-! ## The C++ streaming engine state (`native_stream.cpp`)

The opaque `whisper_full` call is abstracted as an oracle (`CModel.infer`)
returning the per-segment text and token data that the surrounding code
reads back through `whisper_full_n_segments` / `whisper_full_get_*`; the
token-to-piece table (`whisper_token_to_str`, nullable) and the special
token ids are oracle data as well.  `vad_detect_silence` is pure float
arithmetic never touched by a claim and is abstracted as a predicate. -/

/-- One decoded token as read back from the transcriber:
`whisper_full_get_token_id` and `whisper_full_get_token_data(...).p`. -/
structure TokenData where
  id : Int
  p : ℚ
deriving DecidableEq

/-- One segment as read back from the transcriber. -/
structure CSegment where
  text : String
  tokens : List TokenData
deriving DecidableEq

/-- The transcriber context: special token ids, the token-to-piece table,
the inference oracle (window, prompt tokens ↦ segments, `none` = nonzero
return) and the abstracted VAD silence detector. -/
structure CModel where
  tok_eot : Int
  tok_sot : Int
  tok_solm : Int
  tok_prev : Int
  tok_nosp : Int
  tok_not : Int
  tok_beg : Int
  tokToStr : Int → Option String
  infer : List ℚ → List Int → Option (List CSegment)
  vadSilence : List ℚ → Bool

/-- The `whisper_stream` struct. -/
structure WhisperStream where
  pcmf32_new : List ℚ := []
  pcmf32 : List ℚ := []
  pcmf32_old : List ℚ := []
  pcmf32_vad : List ℚ := []
  last_window : String := ""
  transcript : String := ""
  last_confidence : ℚ := 0
  n_samples_step : Nat := 0
  n_samples_len : Nat := 0
  n_samples_keep : Nat := 0
  vad_window_samples : Nat := 0
  n_iter : Nat := 0
  n_new_line : Nat := 1
  keep_context : Bool := false
  use_vad : Bool := false
  prompt_tokens : List Int := []
  current_tokens : List Int := []
  current_text_tokens : List Int := []
  previous_text_tokens : List Int := []

/-- Result of `whisper_stream_process` / `whisper_stream_flush`: a negative
code, 0 with no text, or 1 with text and confidence. -/
inductive StreamResult where
  | fail (code : Int)
  | pending
  | emitted (text : String) (confidence : ℚ)

/-- Model of `samples_from_ms`: `16000 * ms / 1000`, 0 for non-positive `ms`. -/
def samples_from_ms (ms : Int) : Nat :=
  if ms ≤ 0 then 0 else (16000 * ms / 1000).toNat

/-- Model of `collect_text`: joins segment texts with single spaces (a space is
pushed before every segment once the accumulator is non-empty), trims the
result, and averages the strictly positive token probabilities. -/
def collect_text (segments : List CSegment) : String × ℚ :=
  if segments = [] then ("", 0)
  else
    let text := segments.foldl
      (fun acc seg => if acc = "" then acc ++ seg.text else acc ++ " " ++ seg.text) ""
    let pos := ((segments.map (fun seg => seg.tokens)).flatten).filter
      (fun td => decide (0 < td.p))
    let conf : ℚ := if pos.length = 0 then 0 else (pos.map (fun td => td.p)).sum / pos.length
    (cppTrim text, conf)

/-- Model of `is_text_token`: rejects a null or empty piece, pieces starting with
`"[_"`, the seven control tokens, and any token at or above `token_beg`
when `token_beg ≠ -1`. -/
def is_text_token (m : CModel) (tok : Int) (pieceOpt : Option String) : Bool :=
  match pieceOpt with
  | none => false
  | some piece =>
    if piece = "" then false
    else if piece.startsWith "[_" then false
    else if tok = m.tok_eot ∨ tok = m.tok_sot ∨ tok = m.tok_solm ∨
        tok = m.tok_prev ∨ tok = m.tok_nosp ∨ tok = m.tok_not ∨
        tok = m.tok_beg then false
    else if m.tok_beg ≠ -1 ∧ m.tok_beg ≤ tok then false
    else true

/-- Model of `collect_tokens`: all token ids in order, and the subsequence passing
`is_text_token` (piece looked up via `whisper_token_to_str`). -/
def collect_tokens (m : CModel) (segments : List CSegment) : List Int × List Int :=
  let ids := ((segments.map (fun seg => seg.tokens.map (fun td => td.id))).flatten)
  (ids, ids.filter (fun tok => is_text_token m tok (m.tokToStr tok)))

/-- Model of `tokens_to_text`: concatenates the pieces of the text tokens from
`start_index` on and trims; empty when `start_index` is out of range. -/
def tokens_to_text (m : CModel) (tokens : List Int) (start : Nat) : String :=
  if tokens.length ≤ start then ""
  else cppTrim ((tokens.drop start).foldl
    (fun acc tok =>
      match m.tokToStr tok with
      | some piece => if is_text_token m tok (some piece) then acc ++ piece else acc
      | none => acc) "")

/-- Model of `has_repetition_loop`: at least 8 tokens and the last 8 all equal
(the loop counts the trailing run of the last token, capped at 8). -/
def has_repetition_loop (tokens : List Int) : Bool :=
  if tokens.length < 8 then false
  else
    match tokens.reverse with
    | [] => false
    | last :: rest => 8 ≤ (rest.takeWhile (fun t => t = last)).length + 1

/-- Model of `extract_new_text`: token-level delta against the previous window.
Returns the delta text, the `reset_transcript` out-parameter (set to
`false` on entry and never written again in the source), and the updated
stream (`previous_text_tokens` is refreshed only when a non-degenerate
delta position was found). -/
def extract_new_text (m : CModel) (s : WhisperStream) : String × Bool × WhisperStream :=
  if s.current_text_tokens = [] then ("", false, s)
  else
    let new_start := find_common_prefix s.previous_text_tokens s.current_text_tokens
    if s.current_text_tokens.length ≤ new_start then ("", false, s)
    else
      let text := tokens_to_text m s.current_text_tokens new_start
      (text, false, { s with previous_text_tokens := s.current_text_tokens })

/-- Model of `run_inference`: `prepare_params` passes the prompt tokens only when
`no_context` is false (`keep_context` true); on success the collected
text/confidence and token lists are stored (`last_confidence` is set here,
prompt tokens are deliberately not updated here). -/
def run_inference (m : CModel) (s : WhisperStream) (data : List ℚ) :
    Option (String × ℚ × WhisperStream) :=
  match m.infer data (if s.keep_context then s.prompt_tokens else []) with
  | none => none
  | some segments =>
    let tc := collect_text segments
    let ids := collect_tokens m segments
    some (tc.1, tc.2,
      { s with
        last_confidence := tc.2
        current_tokens := ids.1
        current_text_tokens := ids.2 })

/-- Model of `should_trigger_vad`: fires when the rolling tail holds at least
`vad_window_samples` samples and the (abstracted) silence detector accepts
the last `vad_window_samples` of it. -/
def should_trigger_vad (m : CModel) (s : WhisperStream) : Bool :=
  if s.vad_window_samples = 0 ∨ s.pcmf32_vad.length < s.vad_window_samples then false
  else m.vadSilence (s.pcmf32_vad.drop (s.pcmf32_vad.length - s.vad_window_samples))

/-- Model of `transcribe_vad_buffer`: hands the capped tail to the transcriber as a
single window, clears the rolling tail, and on non-empty text clears the
incremental state and emits the whole window text. -/
def transcribe_vad_buffer (m : CModel) (s : WhisperStream) : StreamResult × WhisperStream :=
  let total := s.pcmf32_vad.length
  let tk := if 0 < s.n_samples_len then min s.n_samples_len total else total
  if tk = 0 then (.pending, { s with pcmf32_vad := [] })
  else
    let s1 := { s with pcmf32 := s.pcmf32_vad.drop (total - tk), pcmf32_vad := [] }
    match run_inference m s1 s1.pcmf32 with
    | none => (.fail (-2), s1)
    | some (full_text, conf, s2) =>
      let trimmed := cppTrim full_text
      let s3 := { s2 with last_window := trimmed, last_confidence := conf }
      if trimmed = "" then (.pending, s3)
      else
        (.emitted trimmed conf,
          { s3 with
            transcript := ""
            prompt_tokens := []
            current_tokens := []
            current_text_tokens := []
            previous_text_tokens := []
            pcmf32 := []
            pcmf32_old := [] })

/-- The next inference window of `whisper_stream_process` (lines 621-634 of
`native_stream.cpp`): the last `n_samples_take` samples of `pcmf32_old`
followed by all of `pcmf32_new`, with
`n_samples_take = min(|old|, max(0, keep + len - |new|))` (truncated `Nat`
subtraction models the `std::max(0, ...)` on C ints). -/
def stream_window (s1 : WhisperStream) : List ℚ :=
  s1.pcmf32_old.drop (s1.pcmf32_old.length -
    min s1.pcmf32_old.length (s1.n_samples_keep + s1.n_samples_len - s1.pcmf32_new.length)) ++
    s1.pcmf32_new

/-- Lines 651-696 of `whisper_stream_process`: extract the token-level
delta, honour the (never-set) `reset_transcript` flag, bump the iteration
counter with its periodic `pcmf32_old` compaction and prompt refresh, then
either report pending (empty delta) or append the delta to the transcript
and emit it. -/
def process_delta_update (m : CModel) (conf : ℚ) (s4 : WhisperStream) :
    StreamResult × WhisperStream :=
  let ext := extract_new_text m s4
  let delta := ext.1
  let s6 : WhisperStream :=
    if ext.2.1 then
      { ext.2.2 with
        prompt_tokens := []
        transcript := ""
        previous_text_tokens := [] }
    else ext.2.2
  let s7 : WhisperStream := { s6 with n_iter := s6.n_iter + 1 }
  let s8 : WhisperStream :=
    if s7.n_iter % s7.n_new_line = 0 then
      let keep_size := min s7.n_samples_keep s7.pcmf32.length
      let s8a := { s7 with pcmf32_old := s7.pcmf32.drop (s7.pcmf32.length - keep_size) }
      if s8a.keep_context then { s8a with prompt_tokens := s8a.current_tokens } else s8a
    else s7
  if delta = "" then (.pending, { s8 with last_confidence := conf })
  else
    (.emitted delta conf,
      { s8 with
        transcript := if s8.transcript = "" then delta else s8.transcript ++ " " ++ delta
        last_confidence := conf })

/-- The firing branch of non-VAD `whisper_stream_process` (lines 621-696):
splice the window, replace `pcmf32_old` by the entire window, clear
`pcmf32_new`, run inference, and update the delta state. -/
def process_nonvad_fire (m : CModel) (s1 : WhisperStream) : StreamResult × WhisperStream :=
  let window := stream_window s1
  let s2 := { s1 with
    pcmf32 := window
    pcmf32_new := []
    pcmf32_old := window }
  match run_inference m s2 window with
  | none => (.fail (-2), s2)
  | some (full_text, conf, s3) => process_delta_update m conf { s3 with last_window := full_text }

/-- Model of `whisper_stream_process` from `native_stream.cpp` (an empty sample span
models the `sample_count <= 0` guard; the `malloc` failure path is not
modelled). -/
def whisper_stream_process (m : CModel) (s : WhisperStream) (samples : List ℚ) :
    StreamResult × WhisperStream :=
  if samples.length = 0 then (.fail (-1), s)
  else if s.use_vad then
    let withNew := s.pcmf32_vad ++ samples
    let capped :=
      if 0 < s.n_samples_len ∧ s.n_samples_len + s.vad_window_samples < withNew.length then
        withNew.drop (withNew.length - (s.n_samples_len + s.vad_window_samples))
      else withNew
    let s1 := { s with pcmf32_vad := capped }
    if should_trigger_vad m s1 then transcribe_vad_buffer m s1
    else (.pending, s1)
  else
    let s1 := { s with pcmf32_new := s.pcmf32_new ++ samples }
    if s1.pcmf32_new.length < s1.n_samples_step then (.pending, s1)
    else process_nonvad_fire m s1

/-- The configuration-derivation part of `whisper_stream_create`
(`n_samples_step/len/keep`, `n_new_line`; VAD forces `keep_context`
off and disables stepping and overlap). -/
def whisper_stream_init (step_ms length_ms keep_ms : Int) (keepContext useVad : Bool) :
    WhisperStream :=
  let kc := if useVad then false else keepContext
  let base : WhisperStream := {
    keep_context := kc
    use_vad := useVad
    vad_window_samples := samples_from_ms 2000
    n_new_line :=
      if useVad = false ∧ 0 < step_ms then max 1 (length_ms / step_ms - 1).toNat else 1
  }
  if useVad then
    { base with
      n_samples_step := 0
      n_samples_len := max (samples_from_ms length_ms) 1
      n_samples_keep := 0 }
  else
    let step := max (samples_from_ms step_ms) 1
    { base with
      n_samples_step := step
      n_samples_len := max (samples_from_ms length_ms) step
      n_samples_keep := min (samples_from_ms keep_ms) step }

theorem extract_new_text_state (m : CModel) (s : WhisperStream) :
    (extract_new_text m s).2.2 = s ∨
    (extract_new_text m s).2.2 = { s with previous_text_tokens := s.current_text_tokens } := by
  unfold extract_new_text
  dsimp only
  split
  · exact Or.inl rfl
  · split
    · exact Or.inl rfl
    · exact Or.inr rfl

theorem extract_new_text_reset (m : CModel) (s : WhisperStream) :
    (extract_new_text m s).2.1 = false := by
  unfold extract_new_text
  dsimp only
  split
  · rfl
  · split
    · rfl
    · rfl

theorem run_inference_some_pres (m : CModel) (s : WhisperStream) (data : List ℚ)
    (t : String) (c : ℚ) (s' : WhisperStream)
    (h : run_inference m s data = some (t, c, s')) :
    s'.pcmf32 = s.pcmf32 ∧ s'.pcmf32_new = s.pcmf32_new ∧ s'.pcmf32_old = s.pcmf32_old ∧
    s'.transcript = s.transcript ∧ s'.n_iter = s.n_iter ∧ s'.n_new_line = s.n_new_line ∧
    s'.n_samples_keep = s.n_samples_keep ∧ s'.n_samples_len = s.n_samples_len ∧
    s'.keep_context = s.keep_context ∧ s'.prompt_tokens = s.prompt_tokens := by
  unfold run_inference at h
  rcases hm : m.infer data (if s.keep_context then s.prompt_tokens else []) with _ | segs
  · rw [hm] at h; simp at h
  · rw [hm] at h
    dsimp only at h
    injection h with h'
    have hs := congrArg (fun x : String × ℚ × WhisperStream => x.2.2) h'
    dsimp only at hs
    subst hs
    exact ⟨rfl, rfl, rfl, rfl, rfl, rfl, rfl, rfl, rfl, rfl⟩

theorem process_delta_update_pcm (m : CModel) (conf : ℚ) (s4 : WhisperStream) :
    (process_delta_update m conf s4).2.pcmf32 = s4.pcmf32 ∧
    (process_delta_update m conf s4).2.pcmf32_new = s4.pcmf32_new ∧
    ((process_delta_update m conf s4).2.pcmf32_old = s4.pcmf32_old ∨
      (process_delta_update m conf s4).2.pcmf32_old =
        s4.pcmf32.drop (s4.pcmf32.length - min s4.n_samples_keep s4.pcmf32.length)) := by
  unfold process_delta_update
  dsimp only
  rw [extract_new_text_reset]
  rcases extract_new_text_state m s4 with hext | hext <;>
    rw [hext] <;>
    simp only [Bool.false_eq_true, if_false] <;>
    split_ifs <;>
    exact ⟨rfl, rfl, by first | exact Or.inl rfl | exact Or.inr rfl⟩

theorem process_delta_update_emitted (m : CModel) (conf : ℚ) (s4 : WhisperStream)
    (d : String) (c : ℚ) (h : (process_delta_update m conf s4).1 = .emitted d c) :
    (process_delta_update m conf s4).2.transcript =
      (if s4.transcript = "" then d else s4.transcript ++ " " ++ d) := by
  unfold process_delta_update at h ⊢
  dsimp only at h ⊢
  rw [extract_new_text_reset] at h ⊢
  rcases extract_new_text_state m s4 with hext | hext
  all_goals rw [hext] at h ⊢
  all_goals simp only [Bool.false_eq_true, if_false] at h ⊢
  all_goals try split_ifs at h ⊢
  all_goals
    first
      | (injection h with h1 h2
         subst h1
         rfl)
      | injection h

theorem process_delta_update_pending (m : CModel) (conf : ℚ) (s4 : WhisperStream)
    (h : (process_delta_update m conf s4).1 = .pending) :
    (process_delta_update m conf s4).2.transcript = s4.transcript := by
  unfold process_delta_update at h ⊢
  dsimp only at h ⊢
  rw [extract_new_text_reset] at h ⊢
  rcases extract_new_text_state m s4 with hext | hext
  all_goals rw [hext] at h ⊢
  all_goals simp only [Bool.false_eq_true, if_false] at h ⊢
  all_goals try split_ifs at h ⊢
  all_goals first
    | exact StreamResult.noConfusion h
    | rfl

theorem process_nonvad_fire_window (m : CModel) (s1 : WhisperStream) :
    (process_nonvad_fire m s1).2.pcmf32 = stream_window s1 ∧
    (process_nonvad_fire m s1).2.pcmf32_new = [] ∧
    ((process_nonvad_fire m s1).2.pcmf32_old = stream_window s1 ∨
      (process_nonvad_fire m s1).2.pcmf32_old =
        (stream_window s1).drop ((stream_window s1).length -
          min s1.n_samples_keep (stream_window s1).length)) := by
  unfold process_nonvad_fire
  dsimp only
  split
  · exact ⟨rfl, rfl, Or.inl rfl⟩
  · rename_i full_text conf s3 heq
    obtain ⟨p1, p2, p3, _, _, _, p7, _, _, _⟩ := run_inference_some_pres _ _ _ _ _ _ heq
    obtain ⟨q1, q2, q3⟩ := process_delta_update_pcm m conf { s3 with last_window := full_text }
    refine ⟨?_, ?_, ?_⟩
    · rw [q1]; exact p1
    · rw [q2]; exact p2
    · rcases q3 with q3 | q3
      · rw [q3]; exact Or.inl p3
      · right
        rw [q3]
        show s3.pcmf32.drop (s3.pcmf32.length - min s3.n_samples_keep s3.pcmf32.length) = _
        rw [p1, p7]

theorem whisper_stream_process_fire (m : CModel) (s : WhisperStream) (samples : List ℚ)
    (hv : s.use_vad = false) (hne : ¬ samples.length = 0)
    (hfire : s.n_samples_step ≤ (s.pcmf32_new ++ samples).length) :
    whisper_stream_process m s samples =
      process_nonvad_fire m { s with pcmf32_new := s.pcmf32_new ++ samples } := by
  unfold whisper_stream_process
  rw [if_neg hne, if_neg (show ¬ s.use_vad = true by simp [hv])]
  dsimp only
  rw [if_neg (Nat.not_lt.mpr hfire)]

theorem whisper_stream_process_nofire (m : CModel) (s : WhisperStream) (samples : List ℚ)
    (hv : s.use_vad = false) (hne : ¬ samples.length = 0)
    (hfire : (s.pcmf32_new ++ samples).length < s.n_samples_step) :
    whisper_stream_process m s samples =
      (.pending, { s with pcmf32_new := s.pcmf32_new ++ samples }) := by
  unfold whisper_stream_process
  rw [if_neg hne, if_neg (show ¬ s.use_vad = true by simp [hv])]
  dsimp only
  rw [if_pos hfire]

/-- C2 (amended): in non-VAD mode, whenever accumulated new audio reaches
at least `step` samples, `process` builds the inference window (stored in
`pcmf32` and handed to the transcriber) as the last `take` samples of
`audio_old` followed by all of `audio_new`, with
`take = min(|audio_old|, max(0, keep + length − |audio_new|))`;
`audio_new` is emptied; `audio_old` is replaced by the entire window and
then, when the per-call iteration counter reaches a multiple of
`n_new_line`, reduced to the window's last `keep` samples.  The window is
never trimmed to `length_ms` worth of samples. -/
theorem whisper_stream_process_window (m : CModel) (s : WhisperStream) (samples : List ℚ)
    (hv : s.use_vad = false) (hne : samples ≠ [])
    (hfire : s.n_samples_step ≤ (s.pcmf32_new ++ samples).length) :
    (whisper_stream_process m s samples).2.pcmf32 =
      s.pcmf32_old.drop (s.pcmf32_old.length -
        min s.pcmf32_old.length
          (s.n_samples_keep + s.n_samples_len - (s.pcmf32_new ++ samples).length)) ++
      (s.pcmf32_new ++ samples) ∧
    (whisper_stream_process m s samples).2.pcmf32_new = [] ∧
    ((whisper_stream_process m s samples).2.pcmf32_old =
        (whisper_stream_process m s samples).2.pcmf32 ∨
      (whisper_stream_process m s samples).2.pcmf32_old =
        (whisper_stream_process m s samples).2.pcmf32.drop
          ((whisper_stream_process m s samples).2.pcmf32.length -
            min s.n_samples_keep (whisper_stream_process m s samples).2.pcmf32.length)) := by
  have hne' : ¬ samples.length = 0 := fun h => hne (List.length_eq_zero.mp h)
  rw [whisper_stream_process_fire m s samples hv hne' hfire]
  obtain ⟨w1, w2, w3⟩ :=
    process_nonvad_fire_window m { s with pcmf32_new := s.pcmf32_new ++ samples }
  refine ⟨w1, w2, ?_⟩
  rcases w3 with w3 | w3
  · exact Or.inl (w3.trans w1.symm)
  · right
    rw [w3, w1]

/-- Oracle used by windowing counterexamples: the transcriber reports no
segments, no piece table, VAD never fires. -/
def silentModel : CModel :=
  { tok_eot := -1, tok_sot := -1, tok_solm := -1, tok_prev := -1, tok_nosp := -1,
    tok_not := -1, tok_beg := -1, tokToStr := fun _ => none,
    infer := fun _ _ => some [], vadSilence := fun _ => false }

/-- State after one 32-sample call with `step_ms = 1`, `length_ms = 2`,
`keep_ms = 1` (16 / 32 / 16 samples): the iteration reset keeps the last
16 samples as `pcmf32_old`. -/
def windowCexState1 : WhisperStream :=
  (whisper_stream_process silentModel (whisper_stream_init 1 2 1 false false)
    (List.replicate 32 0)).2

/-- State after a second 32-sample call: `take = min(16, 16+32-32) = 16`,
so the window spliced is 16 + 32 = 48 samples while `n_samples_len` is
32. -/
def windowCexState2 : WhisperStream :=
  (whisper_stream_process silentModel windowCexState1 (List.replicate 32 0)).2

set_option maxRecDepth 100000 in
/-- C2 counterexample: the claim's final clause — "if the window exceeds
`length_ms` worth of samples it is trimmed from the head" — fails: after
the second call above the spliced window (`pcmf32`, the exact buffer
handed to the transcriber and kept as `pcmf32_old`) holds 48 samples,
exceeding `n_samples_len = 32`, untrimmed. -/
theorem whisper_stream_process_claim_counterexample :
    windowCexState2.pcmf32.length = 48 ∧ windowCexState2.n_samples_len = 32 ∧
    ¬ windowCexState2.pcmf32.length ≤ windowCexState2.n_samples_len := by
  refine ⟨by decide, by decide, by decide⟩

set_option maxRecDepth 100000 in
/-- Witness for the amended C2 theorem at the concrete first call above. -/
theorem whisper_stream_process_window_witness :
    (whisper_stream_process silentModel (whisper_stream_init 1 2 1 false false)
      (List.replicate 32 0)).2.pcmf32_new = [] :=
  (whisper_stream_process_window silentModel (whisper_stream_init 1 2 1 false false)
    (List.replicate 32 0) rfl (by decide) (by decide)).2.1

/-- C5 (amended): in non-VAD mode the delta is never discarded: whenever a
`process` call emits a delta the accumulated transcript is extended by it
(joined with one space when non-empty) — also in calls whose window ends
with 8 identical tokens — and whenever the call emits nothing the
transcript is unchanged.  `has_repetition_loop` exists in the source but
is never called. -/
theorem whisper_stream_process_transcript (m : CModel) (s : WhisperStream) (samples : List ℚ)
    (hv : s.use_vad = false) :
    (∀ d c, (whisper_stream_process m s samples).1 = .emitted d c →
      (whisper_stream_process m s samples).2.transcript =
        (if s.transcript = "" then d else s.transcript ++ " " ++ d)) ∧
    ((whisper_stream_process m s samples).1 = .pending →
      (whisper_stream_process m s samples).2.transcript = s.transcript) := by
  by_cases h0 : samples.length = 0
  · unfold whisper_stream_process
    rw [if_pos h0]
    exact ⟨fun d c h => StreamResult.noConfusion h, fun h => StreamResult.noConfusion h⟩
  · by_cases hfire : s.n_samples_step ≤ (s.pcmf32_new ++ samples).length
    · rw [whisper_stream_process_fire m s samples hv h0 hfire]
      unfold process_nonvad_fire
      dsimp only
      split
      · exact ⟨fun d c h => StreamResult.noConfusion h, fun h => StreamResult.noConfusion h⟩
      · rename_i full_text conf s3 heq
        obtain ⟨_, _, _, p4, _, _, _, _, _, _⟩ := run_inference_some_pres _ _ _ _ _ _ heq
        constructor
        · intro d c h
          rw [process_delta_update_emitted m conf { s3 with last_window := full_text } d c h]
          rw [show ({ s3 with last_window := full_text } : WhisperStream).transcript =
                s3.transcript from rfl, p4]
        · intro h
          rw [process_delta_update_pending m conf { s3 with last_window := full_text } h]
          rw [show ({ s3 with last_window := full_text } : WhisperStream).transcript =
                s3.transcript from rfl, p4]
    · rw [whisper_stream_process_nofire m s samples hv h0 (Nat.not_le.mp hfire)]
      exact ⟨fun d c h => StreamResult.noConfusion h, fun _ => rfl⟩

/-- Oracle used by the repetition counterexample: every window decodes to
eight identical tokens (id 5, piece `"x"`) with segment text
`"xxxxxxxx"`. -/
def repModel : CModel :=
  { tok_eot := -1, tok_sot := -1, tok_solm := -1, tok_prev := -1, tok_nosp := -1,
    tok_not := -1, tok_beg := -1,
    tokToStr := fun t => if t = 5 then some "x" else none,
    infer := fun _ _ => some [{ text := "xxxxxxxx", tokens := List.replicate 8 { id := 5, p := 1 } }],
    vadSilence := fun _ => false }

/-- Fresh non-VAD stream with `step_ms = length_ms = 1` (16-sample window),
no overlap, no context reuse. -/
def repState : WhisperStream := whisper_stream_init 1 1 0 false false

set_option maxRecDepth 100000 in
/-- C5 counterexample: a call whose current window ends with 8 identical
tokens (`has_repetition_loop` holds on both token lists) still emits the
delta and extends the transcript from `""` to `"xxxxxxxx"` — the delta is
not discarded and the transcript does not stay unchanged. -/
theorem repetition_loop_counterexample :
    has_repetition_loop
      (whisper_stream_process repModel repState (List.replicate 16 0)).2.current_text_tokens
        = true ∧
    has_repetition_loop
      (whisper_stream_process repModel repState (List.replicate 16 0)).2.current_tokens = true ∧
    repState.transcript = "" ∧
    (whisper_stream_process repModel repState (List.replicate 16 0)).2.transcript = "xxxxxxxx" ∧
    (∃ c, (whisper_stream_process repModel repState (List.replicate 16 0)).1 =
      .emitted "xxxxxxxx" c) := by
  refine ⟨by decide, by decide, rfl, by decide, ⟨_, rfl⟩⟩

set_option maxRecDepth 100000 in
/-- Witness for the amended C5 theorem at the repetition input. -/
theorem whisper_stream_process_transcript_witness :
    (whisper_stream_process repModel repState (List.replicate 16 0)).2.transcript =
      (if repState.transcript = "" then "xxxxxxxx"
       else repState.transcript ++ " " ++ "xxxxxxxx") :=
  (whisper_stream_process_transcript repModel repState (List.replicate 16 0) rfl).1
    "xxxxxxxx" _ rfl

/-- Oracle used by the prompt-cap counterexample: one segment of 225
tokens. -/
def promptModel : CModel :=
  { tok_eot := -1, tok_sot := -1, tok_solm := -1, tok_prev := -1, tok_nosp := -1,
    tok_not := -1, tok_beg := -1, tokToStr := fun _ => none,
    infer := fun _ _ => some [{ text := "", tokens := List.replicate 225 { id := 5, p := 1 } }],
    vadSilence := fun _ => false }

/-- Fresh non-VAD stream with context reuse enabled (`keep_context`). -/
def promptState : WhisperStream := whisper_stream_init 1 1 0 true false

set_option maxRecDepth 100000 in
/-- C7 counterexample: the C++ stream's prompt refresh
(`stream->prompt_tokens = stream->current_tokens`) applies no cap: after a
window that produced 225 tokens, `prompt_tokens` holds 225 tokens, not at
most 224. -/
theorem prompt_tokens_cap_counterexample :
    (whisper_stream_process promptModel promptState (List.replicate 16 0)).2.prompt_tokens.length
        = 225 ∧
    ¬ (whisper_stream_process promptModel promptState
        (List.replicate 16 0)).2.prompt_tokens.length ≤ 224 := by
  refine ⟨by decide, by decide⟩

/-! ## Go native engine (`internal/engine/native.go`)

`whisper_full_with_state` is abstracted as an oracle from (samples,
language, prompt tokens) to the per-segment output read back through the
`*_from_state` accessors, or an error: `.canceled` / `.deadline` model a
non-zero return with the context cancelled (the code surfaces `ctx.Err()`),
`.failed` models `InferenceFailed`. -/

inductive InferErr where
  | canceled
  | deadline
  | failed (code : Int)
deriving DecidableEq

/-- Model of `transcriptAggregate`. -/
structure Aggregate where
  text : String
  confidence : ℚ

/-- Engine `Options` (`internal/engine/types.go`). -/
structure Options where
  language : String := ""
  final : Bool := false
  sequence : Nat := 0

/-- Engine `Result`. -/
structure Result where
  text : String
  confidence : ℚ
  final : Bool

/-- Model of `collectTranscriptAggregate`: trims each segment text, joins non-empty
ones with single spaces, averages strictly positive token probabilities,
and blanks the case-insensitive `[BLANK_AUDIO]` placeholder. -/
def collectTranscriptAggregate (segments : List CSegment) : Aggregate :=
  if segments = [] then ⟨"", 0⟩
  else
    let text := segments.foldl
      (fun acc seg =>
        let t := goTrimSpace seg.text
        if t = "" then acc else if acc = "" then t else acc ++ " " ++ t) ""
    let pos := ((segments.map (fun seg => seg.tokens)).flatten).filter
      (fun td => decide (0 < td.p))
    let confidence : ℚ :=
      if pos.length = 0 then 0 else (pos.map (fun td => td.p)).sum / pos.length
    let final := goTrimSpace text
    ⟨if goToLower final = "[blank_audio]" then "" else final, confidence⟩

/-- Model of `collectPromptTokens`: keeps the previous prompt when the state holds
no segments; otherwise gathers all token ids and keeps only the newest
`maxPromptTokens = 224`. -/
def collectPromptTokens (segments : List CSegment) (old : List Int) : List Int :=
  if segments.length = 0 then old
  else
    let tokens := ((segments.map (fun seg => seg.tokens.map (fun td => td.id))).flatten)
    if 224 < tokens.length then tokens.drop (tokens.length - 224) else tokens

/-- The mutable fields of `NativeEngine` (engine package). -/
structure NativeEngineState where
  audio : List (Fin 256) := []
  lastSegment : List (Fin 256) := []
  promptTokens : List Int := []
  lastText : String := ""
  language : String := ""
  lastConf : ℚ := 0
  defaultLang : String := ""

/-- Model of `resetLocked`: clears everything except `defaultLang`. -/
def resetLocked (e : NativeEngineState) : NativeEngineState :=
  { e with
    audio := []
    lastSegment := []
    promptTokens := []
    lastText := ""
    language := ""
    lastConf := 0 }

/-- Model of `NativeEngine.runInference` (engine package): context and emptiness
guards, PCM conversion, the oracle call with the prompt tokens, then
prompt-token collection and the transcript aggregate. -/
def NativeEngineRunInference (ctxErr : Bool)
    (infer : List ℚ → String → List Int → Except InferErr (List CSegment))
    (e : NativeEngineState) (audio : List (Fin 256)) (language : String) :
    Except InferErr Aggregate × NativeEngineState :=
  if ctxErr then (.error .canceled, e)
  else if audio.length = 0 then (.ok ⟨"", 0⟩, e)
  else
    let samples := pcmBytesToFloat32 audio
    if samples.length = 0 then (.ok ⟨"", 0⟩, e)
    else
      let lang := if goTrimSpace language = "" then "auto" else goTrimSpace language
      match infer samples lang e.promptTokens with
      | .error err => (.error err, e)
      | .ok segments =>
        (.ok (collectTranscriptAggregate segments),
          { e with promptTokens := collectPromptTokens segments e.promptTokens })

/-- Model of `NativeEngine.Flush` (engine package): runs a last inference over any
residual audio, swallows cancellation without reset, resets all state on
success or hard failure, and emits one final result when the trimmed text
is non-empty. -/
def NativeEngineFlush (ctxErr : Bool)
    (infer : List ℚ → String → List Int → Except InferErr (List CSegment))
    (e : NativeEngineState) (opts : Options) :
    Except InferErr (List Result) × NativeEngineState :=
  if ctxErr then (.error .canceled, e)
  else
    let lang := normaliseLanguage opts.language e.language e.defaultLang
    if 0 < e.audio.length then
      let ri := NativeEngineRunInference ctxErr infer e e.audio lang
      match ri.1 with
      | .ok agg =>
        let finalText := goTrimSpace agg.text
        let e2 := resetLocked ri.2
        if finalText = "" then (.ok [], e2)
        else (.ok [{ text := finalText, confidence := agg.confidence, final := true }], e2)
      | .error err =>
        if err = .canceled ∨ err = .deadline then (.ok [], ri.2)
        else (.error err, resetLocked ri.2)
    else
      let finalText := goTrimSpace e.lastText
      let e2 := resetLocked e
      if finalText = "" then (.ok [], e2)
      else (.ok [{ text := finalText, confidence := e.lastConf, final := true }], e2)

theorem NativeEngineRunInference_error (infer : List ℚ → String → List Int →
      Except InferErr (List CSegment))
    (e : NativeEngineState) (audio : List (Fin 256)) (language : String) (err : InferErr)
    (h : (NativeEngineRunInference false infer e audio language).1 = .error err) :
    ∃ samples lg pt, infer samples lg pt = .error err := by
  unfold NativeEngineRunInference at h
  simp only [Bool.false_eq_true, if_false] at h
  split at h
  · exact absurd h (by simp)
  · split at h
    · exact absurd h (by simp)
    · split at h
      · rename_i heq
        refine ⟨_, _, _, heq.trans ?_⟩
        injection h with h'
        rw [h']
      · exact absurd h (by simp)

theorem NativeEngineFlush_of_reset (infer : List ℚ → String → List Int →
      Except InferErr (List CSegment)) (e : NativeEngineState) (opts : Options) :
    (NativeEngineFlush false infer (resetLocked e) opts).1 = .ok [] := rfl

/-- C4 (amended): for the Go native engine, as long as the transcriber
never reports a cancellation or deadline, the second of two consecutive
uncancelled flushes with no intervening audio emits no results (the first
flush always resets the session state; the stub engine instead emits a
placeholder final on every flush, see the counterexample). -/
theorem NativeEngineFlush_idempotent (infer : List ℚ → String → List Int →
      Except InferErr (List CSegment))
    (e : NativeEngineState) (opts1 opts2 : Options)
    (hnc : ∀ samples lg pt, infer samples lg pt ≠ .error .canceled ∧
      infer samples lg pt ≠ .error .deadline) :
    (NativeEngineFlush false infer (NativeEngineFlush false infer e opts1).2 opts2).1 =
      .ok [] := by
  have hreset : ∃ e'', (NativeEngineFlush false infer e opts1).2 = resetLocked e'' := by
    unfold NativeEngineFlush
    simp only [Bool.false_eq_true, if_false]
    split
    · split
      · split
        · exact ⟨_, rfl⟩
        · exact ⟨_, rfl⟩
      · rename_i err heq
        split
        · rename_i hcd
          obtain ⟨samples, lg, pt, hinf⟩ :=
            NativeEngineRunInference_error infer e e.audio _ err heq
          rcases hcd with hcd | hcd
          · exact absurd (hcd ▸ hinf) (hnc samples lg pt).1
          · exact absurd (hcd ▸ hinf) (hnc samples lg pt).2
        · exact ⟨_, rfl⟩
    · split
      · exact ⟨_, rfl⟩
      · exact ⟨_, rfl⟩
  obtain ⟨e'', he⟩ := hreset
  rw [he]
  exact NativeEngineFlush_of_reset infer e'' opts2

/-- Witness for the amended C4 theorem: double flush of a fresh engine with
an oracle that always decodes zero segments. -/
theorem NativeEngineFlush_idempotent_witness :
    (NativeEngineFlush false (fun _ _ _ => .ok [])
      (NativeEngineFlush false (fun _ _ _ => .ok []) {} {}).2 {}).1 = .ok [] :=
  NativeEngineFlush_idempotent (fun _ _ _ => .ok []) {} {} {}
    (fun _ _ _ => ⟨fun h => Except.noConfusion h, fun h => Except.noConfusion h⟩)

/-- C7 (amended): in the Go engine, `collectPromptTokens` keeps the prompt
at 224 tokens or fewer after every inference (given it held at most 224
before, as it does inductively from the empty initial prompt), and when
the window produced more than 224 tokens exactly the newest 224 are
retained; the C++ stream's prompt refresh applies no such cap (see the
counterexample). -/
theorem collectPromptTokens_cap (segments : List CSegment) (old : List Int)
    (hold : old.length ≤ 224) :
    (collectPromptTokens segments old).length ≤ 224 ∧
    (224 < ((segments.map (fun seg => seg.tokens.map (fun td => td.id))).flatten).length →
      collectPromptTokens segments old =
        ((segments.map (fun seg => seg.tokens.map (fun td => td.id))).flatten).drop
          (((segments.map (fun seg => seg.tokens.map (fun td => td.id))).flatten).length -
            224)) := by
  unfold collectPromptTokens
  dsimp only
  split
  · rename_i hs
    constructor
    · exact hold
    · intro hgt
      have : segments = [] := List.length_eq_zero.mp hs
      subst this
      simp at hgt
  · constructor
    · split
      · rename_i hgt
        simp only [List.length_drop]
        omega
      · rename_i hle
        omega
    · intro hgt
      rw [if_pos hgt]

/-- Witness for the amended C7 theorem at a 225-token window. -/
theorem collectPromptTokens_cap_witness :
    (collectPromptTokens [{ text := "", tokens := List.replicate 225 { id := 5, p := 1 } }]
      []).length ≤ 224 :=
  (collectPromptTokens_cap [{ text := "", tokens := List.replicate 225 { id := 5, p := 1 } }]
    [] (by decide)).1

/-! ## Stub engine (`StubEngine`, engine package) -/

/-- The mutable state of `StubEngine`. -/
structure StubState where
  modelVariant : String
  totalBytes : Nat := 0

/-- Model of `StubEngine.TranscribeSegment`: empty audio yields nothing; otherwise
the byte count is accumulated and one result is emitted with
`Final: opts.Final`. -/
def StubTranscribeSegment (st : StubState) (audio : List (Fin 256)) (opts : Options) :
    List Result × StubState :=
  if audio.length = 0 then ([], st)
  else
    ([{ text := "[stub:" ++ st.modelVariant ++ "] received " ++ toString audio.length
          ++ " bytes"
        confidence := 42 / 100
        final := opts.final }],
     { st with totalBytes := st.totalBytes + audio.length })

/-- Model of `StubEngine.Flush`: always emits exactly one final result — the
total-bytes text when bytes were accepted since the last flush, the
placeholder `"[stub] stream closed"` otherwise — and resets the count. -/
def StubFlush (st : StubState) (_opts : Options) : List Result × StubState :=
  let text :=
    if 0 < st.totalBytes then
      "[stub:" ++ st.modelVariant ++ "] total bytes " ++ toString st.totalBytes
    else "[stub] stream closed"
  ([{ text := text, confidence := 1, final := true }], { st with totalBytes := 0 })

/-- C9 counterexample: two clauses of the claim fail.  `process` sets
`final = opts.Final`, not always `false` (with `opts.Final = true` the
emitted result is final), and a flush with no accepted bytes emits
`"[stub] stream closed"`, not `"[stub:<variant>] total bytes 0"`. -/
theorem stub_claim_counterexample :
    (StubTranscribeSegment ⟨"small", 0⟩ (List.replicate 4 0)
        { language := "", final := true, sequence := 1 }).1 =
      [{ text := "[stub:small] received 4 bytes", confidence := 42 / 100, final := true }] ∧
    (true ≠ false) ∧
    (StubFlush ⟨"small", 0⟩ { language := "", final := true, sequence := 1 }).1 =
      [{ text := "[stub] stream closed", confidence := 1, final := true }] ∧
    ("[stub] stream closed" : String) ≠ "[stub:small] total bytes 0" := by
  refine ⟨rfl, by decide, rfl, by decide⟩

/-- C9 (amended): for every non-empty chunk of `N` bytes the stub's
`process` emits exactly one result with text
`"[stub:<variant>] received <N> bytes"`, confidence 0.42 and
`final = opts.Final`, accumulating `N` into the running count; `flush`
emits exactly one result with confidence 1.0 and `final = true`, whose
text is `"[stub:<variant>] total bytes <M>"` when `M > 0` bytes were
accepted since the last flush and `"[stub] stream closed"` when `M = 0`,
and resets the count. -/
theorem stub_engine_amended :
    (∀ st audio opts, audio ≠ ([] : List (Fin 256)) →
      StubTranscribeSegment st audio opts =
        ([{ text := "[stub:" ++ st.modelVariant ++ "] received " ++ toString audio.length
              ++ " bytes"
            confidence := 42 / 100
            final := opts.final }],
         { st with totalBytes := st.totalBytes + audio.length })) ∧
    (∀ st opts, 0 < st.totalBytes →
      StubFlush st opts =
        ([{ text := "[stub:" ++ st.modelVariant ++ "] total bytes " ++ toString st.totalBytes
            confidence := 1
            final := true }], { st with totalBytes := 0 })) ∧
    (∀ st opts, st.totalBytes = 0 →
      StubFlush st opts =
        ([{ text := "[stub] stream closed", confidence := 1, final := true }],
         { st with totalBytes := 0 })) ∧
    (StubTranscribeSegment ⟨"small", 0⟩ (List.replicate 4 0)
        { language := "", final := false, sequence := 1 }).1 =
      [{ text := "[stub:small] received 4 bytes", confidence := 42 / 100, final := false }] ∧
    (StubFlush (StubTranscribeSegment ⟨"small", 0⟩ (List.replicate 4 0)
        { language := "", final := false, sequence := 1 }).2
        { language := "", final := true, sequence := 1 }).1 =
      [{ text := "[stub:small] total bytes 4", confidence := 1, final := true }] := by
  refine ⟨?_, ?_, ?_, rfl, rfl⟩
  · intro st audio opts h
    unfold StubTranscribeSegment
    rw [if_neg (fun hl => h (List.length_eq_zero.mp hl))]
  · intro st opts h
    unfold StubFlush
    rw [if_pos h]
  · intro st opts h
    unfold StubFlush
    rw [if_neg (by omega)]

/-- Witness for the amended C9 theorem at a 4-byte chunk. -/
theorem stub_engine_amended_witness :
    StubTranscribeSegment ⟨"base", 0⟩ (List.replicate 4 0)
        { language := "", final := false, sequence := 7 } =
      ([{ text := "[stub:base] received 4 bytes", confidence := 42 / 100, final := false }],
       ⟨"base", 4⟩) := by
  have h := stub_engine_amended.1 ⟨"base", 0⟩ (List.replicate 4 0)
    { language := "", final := false, sequence := 7 } (by simp)
  exact h

/-- State of a stub that has accepted 4 bytes. -/
def stubAfterAudio : StubState :=
  (StubTranscribeSegment ⟨"small", 0⟩ (List.replicate 4 0)
    { language := "", final := false, sequence := 1 }).2

/-- C4 counterexample: the stub engine is an engine implementation on which
double flush emits two non-empty finals: the first flush emits
`"total bytes 4"`, and the second — immediately after, with no intervening
audio — emits the non-empty final `"[stub] stream closed"` instead of
nothing. -/
theorem stub_flush_twice_counterexample :
    (StubFlush stubAfterAudio { language := "", final := true, sequence := 1 }).1 =
      [{ text := "[stub:small] total bytes 4", confidence := 1, final := true }] ∧
    (StubFlush (StubFlush stubAfterAudio { language := "", final := true, sequence := 1 }).2
        { language := "", final := true, sequence := 1 }).1 =
      [{ text := "[stub] stream closed", confidence := 1, final := true }] ∧
    ("[stub] stream closed" : String) ≠ "" := by
  refine ⟨rfl, rfl, by decide⟩

/-! ## Whisper-package native engine (`internal/whisper/native.go`) -/

theorem pcm_length (buf : List (Fin 256)) :
    (pcmBytesToFloat32 buf).length = buf.length / 2 := by
  rw [pcm_eq_map]
  simp

/-- Errors of the whisper-package engine: context error, the audio-buffer
overflow, or a failed inference. -/
inductive WhisperErr where
  | ctxErr
  | overflow
  | inferFailed (code : Int)
deriving DecidableEq

/-- Model of `maxAudioBytes` of the whisper package: `10 * 1024 * 1024` bytes — the
safety cap per stream. -/
def whisperMaxAudioBytes : Nat := 10 * 1024 * 1024

/-- Model of `collectTextFromState`: trimmed segment texts joined with single
spaces, trimmed again. -/
def collectTextFromState (segments : List CSegment) : String :=
  if segments = [] then ""
  else goTrimSpace (segments.foldl
    (fun acc seg =>
      let t := goTrimSpace seg.text
      if t = "" then acc else if acc = "" then t else acc ++ " " ++ t) "")

/-- Model of `NativeEngine.runInference` of the whisper package (no prompt-token
context: `no_context = true`). -/
def WhisperRunInference (ctxErr : Bool)
    (infer : List ℚ → String → Except WhisperErr (List CSegment))
    (audio : List (Fin 256)) (language : String) : Except WhisperErr String :=
  if ctxErr then .error .ctxErr
  else if audio.length = 0 then .ok ""
  else
    let samples := pcmBytesToFloat32 audio
    if samples.length = 0 then .ok ""
    else
      let lang := if goTrimSpace language = "" then "auto" else goTrimSpace language
      match infer samples lang with
      | .error err => .error err
      | .ok segments => .ok (collectTextFromState segments)

/-- The mutable fields of the whisper-package `NativeEngine`. -/
structure WhisperEngineState where
  audio : List (Fin 256) := []
  lastText : String := ""
  language : String := ""

/-- Model of `NativeEngine.TranscribeSegment` of the whisper package: rejects the
call with an overflow error — before appending, state untouched — when the
accumulated audio plus the new chunk would exceed `maxAudioBytes`;
otherwise appends, re-runs inference over the whole accumulated buffer,
and emits the rune-level delta when non-empty. -/
def WhisperTranscribeSegment (ctxErr : Bool)
    (infer : List ℚ → String → Except WhisperErr (List CSegment))
    (e : WhisperEngineState) (audio : List (Fin 256)) (opts : Options) :
    Except WhisperErr (List Result) × WhisperEngineState :=
  if ctxErr then (.error .ctxErr, e)
  else if audio.length = 0 then (.ok [], e)
  else
    let lang := normaliseLanguageW opts.language e.language
    if whisperMaxAudioBytes < e.audio.length + audio.length then
      (.error .overflow, e)
    else
      let e1 := { e with audio := e.audio ++ audio }
      match WhisperRunInference ctxErr infer e1.audio lang with
      | .error err => (.error err, e1)
      | .ok combined =>
        let delta := diffTranscript e.lastText combined
        let e2 := { e1 with language := lang, lastText := combined }
        if delta = "" then (.ok [], e2)
        else (.ok [{ text := delta, confidence := 0, final := false }], e2)

/-- C3 (amended): the overflow guard lives in the whisper-package engine
and its cap is `maxAudioBytes` = 10 MiB of buffered bytes — not
`length_ms` worth of samples: every uncancelled non-empty `process` call
that would push the accumulated buffer past 10 MiB fails with the
`AudioBufferOverflow` error before touching the buffer, so the engine
state is left intact and the caller may retry.  (The engine-package native
engine has no overflow error at all; it silently trims its window to 30
seconds.) -/
theorem whisper_overflow (infer : List ℚ → String → Except WhisperErr (List CSegment))
    (e : WhisperEngineState) (audio : List (Fin 256)) (opts : Options)
    (hne : audio.length ≠ 0)
    (hcap : whisperMaxAudioBytes < e.audio.length + audio.length) :
    WhisperTranscribeSegment false infer e audio opts = (.error .overflow, e) := by
  unfold WhisperTranscribeSegment
  rw [if_neg (by simp), if_neg hne]
  dsimp only
  rw [if_pos hcap]

/-- A chunk one byte past the 10 MiB cap. -/
def bigChunk : List (Fin 256) := List.replicate 10485761 0

theorem bigChunk_length : bigChunk.length = 10485761 := by
  unfold bigChunk; rw [List.length_replicate]

/-- Trivial whisper-package oracle: zero segments for any window. -/
def okOracle : List ℚ → String → Except WhisperErr (List CSegment) := fun _ _ => .ok []

/-- Witness for the amended C3 theorem: a chunk one byte past the 10 MiB
cap on a fresh engine. -/
theorem whisper_overflow_witness :
    WhisperTranscribeSegment false okOracle {} bigChunk {} = (.error .overflow, {}) :=
  whisper_overflow okOracle {} bigChunk {}
    (by rw [bigChunk_length]; omega)
    (by
      show (10 * 1024 * 1024 : Nat) <
        ({} : WhisperEngineState).audio.length + bigChunk.length
      rw [bigChunk_length]
      omega)

/-- Whisper-package oracle decoding one segment `"hi"` for any window. -/
def hiOracle : List ℚ → String → Except WhisperErr (List CSegment) :=
  fun _ _ => .ok [{ text := "hi", tokens := [] }]

/-- A chunk of 320002 bytes = 160001 samples: strictly more than
`length_ms` (default 10000 ms at 16 kHz = 160000 samples) worth of audio
in one call. -/
def lenMsChunk : List (Fin 256) := List.replicate 320002 0

theorem lenMsChunk_length : lenMsChunk.length = 320002 := by
  unfold lenMsChunk; rw [List.length_replicate]

/-- Under the cap, an uncancelled non-empty `process` call of the
whisper-package engine reaches inference: its emission is determined by
the inference outcome and the rune-level delta (no overflow error). -/
theorem whisper_under_cap (infer : List ℚ → String → Except WhisperErr (List CSegment))
    (e : WhisperEngineState) (audio : List (Fin 256)) (opts : Options)
    (hne : audio.length ≠ 0)
    (hcap : ¬ (whisperMaxAudioBytes < e.audio.length + audio.length)) :
    (WhisperTranscribeSegment false infer e audio opts).1 =
      (match WhisperRunInference false infer (e.audio ++ audio)
          (normaliseLanguageW opts.language e.language) with
       | .error err => .error err
       | .ok combined =>
         if diffTranscript e.lastText combined = "" then .ok []
         else .ok [{ text := diffTranscript e.lastText combined, confidence := 0,
                     final := false }]) := by
  unfold WhisperTranscribeSegment
  rw [if_neg (by simp), if_neg hne]
  dsimp only
  rw [if_neg hcap]
  try dsimp only
  cases hx : WhisperRunInference false infer (e.audio ++ audio)
      (normaliseLanguageW opts.language e.language) with
  | error err => rfl
  | ok combined =>
    dsimp only
    split_ifs <;> rfl

/-- C3 counterexample: feeding more than `length_ms` worth of samples in
one `process` call without an intervening inference does not produce an
`AudioBufferOverflow` error: the whisper-package engine accepts a
160001-sample chunk (its cap is 10 MiB, far above 160000 samples) and
returns an ordinary result; the engine-package native engine has no
overflow error at all. -/
theorem overflow_claim_counterexample :
    160000 < lenMsChunk.length / 2 ∧
    (WhisperTranscribeSegment false hiOracle {} lenMsChunk {}).1 =
      .ok [{ text := "hi", confidence := 0, final := false }] := by
  have hri2 : WhisperRunInference false hiOracle
      (({} : WhisperEngineState).audio ++ lenMsChunk)
      (normaliseLanguageW ({} : Options).language ({} : WhisperEngineState).language) =
      .ok "hi" := by
    rw [show (({} : WhisperEngineState).audio ++ lenMsChunk) = lenMsChunk from rfl,
        show ({} : Options).language = "" from rfl,
        show ({} : WhisperEngineState).language = "" from rfl]
    unfold WhisperRunInference
    rw [if_neg (by simp), if_neg (by rw [lenMsChunk_length]; omega)]
    dsimp only
    rw [if_neg (by rw [pcm_length, lenMsChunk_length]; omega)]
    rfl
  constructor
  · rw [lenMsChunk_length]
    omega
  · rw [whisper_under_cap hiOracle {} lenMsChunk {}
      (by rw [lenMsChunk_length]; omega)
      (by
        rw [show ({} : WhisperEngineState).audio.length = 0 from rfl, lenMsChunk_length]
        show ¬ ((10 * 1024 * 1024 : Nat) < 0 + 320002)
        omega)]
    rw [hri2]
    dsimp only
    rw [if_neg (by decide)]
    rw [show diffTranscript "" "hi" = "hi" from by decide]
